import Mathlib

/-
Shallow embedding of the Blackbox Protocol runtime
(packages/protocol/src/runtime.ts, validation.ts, helpers.ts).

JS values are modelled by the inductive `Val`; JS objects by ordered
association lists `Data = List (String × Val)` (keys unique in practice;
lookups take the first occurrence, `Object.assign` writes replace the
first occurrence in place or append).  The asynchronous runtime is
rendered as a run-to-completion step function: one `doStep` models the
synchronous slice of a dispatch up to (but not including) settlement of
a started service invocation, which is held as a `PendingInvoke` and
applied later by `settleInvoke` — mirroring the promise structure of the
source.  Listener callbacks (`emit`) and console diagnostics are not
modelled; they do not affect session state.
-/

namespace Blackbox

/-- JSON-like runtime value (JS `any`). -/
inductive Val where
  | vNull : Val
  | vStr : String → Val
  | vNum : Int → Val
  | vBool : Bool → Val
  | vArr : List Val → Val
  | vObj : List (String × Val) → Val

/-- A JS object: ordered key/value pairs. -/
abbrev Data := List (String × Val)

/-- First-occurrence lookup, the meaning of `obj[key]` (later duplicates shadowed). -/
def alookup {α : Type} : List (String × α) → String → Option α
  | [], _ => none
  | (k, v) :: rest, key => if k = key then some v else alookup rest key

/-- Write one key: replace the first occurrence in place, else append — the
effect of `obj[key] = v` on an ordered JS object. -/
def setKey {α : Type} : List (String × α) → String → α → List (String × α)
  | [], key, v => [(key, v)]
  | (k, w) :: rest, key, v =>
    if k = key then (k, v) :: rest else (k, w) :: setKey rest key v

/-- `Object.assign(m, updates)`: fold each update pair into `m` in order. -/
def objAssign {α : Type} (m : List (String × α)) (updates : List (String × α)) :
    List (String × α) :=
  updates.foldl (fun acc kv => setKey acc kv.1 kv.2) m

/-- Last-occurrence lookup: the value that survives when `m` is folded into
an object by repeated writes (later duplicate keys win). -/
def lookupLast {α : Type} : List (String × α) → String → Option α
  | [], _ => none
  | (k, v) :: rest, key =>
    match lookupLast rest key with
    | some w => some w
    | none => if k = key then some v else none

/-- JS truthiness of a value (`if (x)`): false for `null`, `false`, `0`, `""`. -/
def truthy : Val → Bool
  | Val.vNull => false
  | Val.vBool b => b
  | Val.vNum n => n ≠ 0
  | Val.vStr s => s ≠ ""
  | Val.vArr _ => true
  | Val.vObj _ => true

/-- Error information `{message, code}` as stored in `BlackboxState.error`. -/
structure ErrInfo where
  message : String
  code : Option String
deriving DecidableEq, Repr

/-- A plug (external callable).  `run d ev` returns the mutated session data
together with the returned value, or an error when the callable throws.
The source passes the live `data` object by reference; mutation is modelled
by returning the new data. -/
structure Plug where
  run : Data → Val → Except ErrInfo (Data × Val)

/-- helpers.ts `assign(updater)`: computes the update object, merges it into
the (live) data with `Object.assign`, and returns the update object. -/
def assign (updater : Data → Val → Data) : Plug :=
  ⟨fun d ev => Except.ok (objAssign d (updater d ev), Val.vObj (updater d ev))⟩

/-- runtime.ts `executePlug`: look the plug up by name in the (shared)
registry at call time; a missing plug throws. -/
def executePlug (plugs : List (String × Plug)) (name : String) (d : Data) (ev : Val) :
    Except ErrInfo (Data × Val) :=
  match alookup plugs name with
  | none => Except.error ⟨"Plug not found: " ++ name, none⟩
  | some p => p.run d ev

/-- A transition target: either a bare phase name (string form) or a
`PhaseTransition` object with optional actions and guard (`cond`).
The source's `string | string[]` action forms are normalised to a list. -/
inductive TransTarget where
  | simple : String → TransTarget
  | full : String → List String → Option String → TransTarget

/-- `target` field of a transition (the bare string is its own target). -/
def TransTarget.target : TransTarget → String
  | TransTarget.simple t => t
  | TransTarget.full t _ _ => t

/-- `actions` of a transition (none for the bare-string form). -/
def TransTarget.actions : TransTarget → List String
  | TransTarget.simple _ => []
  | TransTarget.full _ acts _ => acts

/-- `cond` (guard) of a transition (none for the bare-string form). -/
def TransTarget.cond : TransTarget → Option String
  | TransTarget.simple _ => none
  | TransTarget.full _ _ c => c

/-- A phase's entry for one event: a single transition or an ordered list of
guarded alternatives (`PhaseTransition | PhaseTransition[]`). -/
inductive TEntry where
  | one : TransTarget → TEntry
  | many : List TransTarget → TEntry

/-- A phase's `invoke` declaration. -/
structure Invoke where
  src : String
  input : Option (Data → Val → Val)
  onDone : Option TEntry
  onError : Option TEntry

/-- A phase: transition table `on`, lifecycle plugs, optional invoke, and
`type` (modelled as `ptype`; the source uses the string `"final"`). -/
structure Phase where
  onMap : List (String × TEntry)
  entry : List String
  exit : List String
  invoke : Option Invoke
  ptype : Option String

/-- One field of the data schema used by `initializeData` (`type`, `default`). -/
structure DataDef where
  ftype : Option String
  default : Option Val

/-- The blackbox config: version, initial phase, phase table, data schema and
the initial plug map. -/
structure Config where
  version : String
  initial : Option String
  phases : List (String × Phase)
  dataSchema : List (String × DataDef)
  plugs : List (String × Plug)

/-- HistoryEntry `{type, payload, phase, timestamp}` pushed by `do`. -/
structure HistoryEntry where
  htype : String
  payload : Data
  phase : String
  timestamp : Nat

/-- The mutable session state captured by the `start` closure. -/
structure SessionState where
  currentPhase : String
  data : Data
  loading : Bool
  error : Option ErrInfo
  lastEvent : Val
  history : List HistoryEntry

/-- The observable `where()` value `{phase, data, loading, error}`. -/
structure WhereState where
  phase : String
  data : Data
  loading : Bool
  error : Option ErrInfo

/-- runtime.ts `where()`. -/
def whereFn (s : SessionState) : WhereState :=
  ⟨s.currentPhase, s.data, s.loading, s.error⟩

/-- runtime.ts `snapshot()` payload. -/
structure Snapshot where
  version : String
  phase : String
  data : Data
  timestamp : Nat

/-- A started-but-unsettled service invocation: the promise held between the
synchronous slice that started it and the microtask that settles it.  The
outcome is computed from the data at start time (the plug body runs before
the `await`). -/
structure PendingInvoke where
  invoke : Invoke
  outcome : Except ErrInfo Val

/-- Result of a runtime fragment that can throw: the error carries the
session state as already mutated at the point of the throw. -/
abbrev TRes (α : Type) := Except (SessionState × ErrInfo) α

/-- Guard evaluation in `attemptTransition` lines 106-114: absent guard
passes; a guard result is tested for truthiness; a throwing (or missing)
guard plug is caught and treated as `false` and never aborts the dispatch.
Data mutation by a successfully-returning guard is threaded through. -/
def evalGuard (plugs : List (String × Plug)) (cond : Option String) (d : Data) (ev : Val) :
    Data × Bool :=
  match cond with
  | none => (d, true)
  | some g =>
    match executePlug plugs g d ev with
    | Except.error _ => (d, false)
    | Except.ok (d', v) => (d', truthy v)

/-- Sequential plug execution with the return value discarded and the data
mutation threaded: the shape of both `executeLifecyclePlugs` (lines 76-83)
and the transition-actions loop (lines 122-128).  A throw aborts the loop,
carrying the state reached so far. -/
def runPlugList (plugs : List (String × Plug)) (names : List String) (ev : Val)
    (s : SessionState) : TRes SessionState :=
  match names with
  | [] => Except.ok s
  | n :: rest =>
    match executePlug plugs n s.data ev with
    | Except.error e => Except.error (s, e)
    | Except.ok (d', _) => runPlugList plugs rest ev { s with data := d' }

/-- `{message, code}` error object as an event payload value (`code` absent
when none, as the source leaves `code: undefined`). -/
def errVal (e : ErrInfo) : Val :=
  Val.vObj ([("message", Val.vStr e.message)] ++
    (match e.code with
     | some c => [("code", Val.vStr c)]
     | none => []))

/-- runtime.ts `handleInvoke` lines 158-172, up to the `await`: set
`loading`, compute the input (`invoke.input(data, lastEvent)` if present,
else `lastEvent`), call the service plug on the current data, and hold the
outcome as a pending settlement.  No generation token is recorded. -/
def handleInvokeStart (plugs : List (String × Plug)) (inv : Invoke) (s : SessionState) :
    SessionState × Option PendingInvoke :=
  let s1 := { s with loading := true }
  let input :=
    match inv.input with
    | some f => f s1.data s1.lastEvent
    | none => s1.lastEvent
  match executePlug plugs inv.src s1.data input with
  | Except.ok (d', v) => ({ s1 with data := d' }, some ⟨inv, Except.ok v⟩)
  | Except.error e => (s1, some ⟨inv, Except.error e⟩)

/-- The current phase's exit plugs (`currentPhaseObj?.exit`, lines 117-120;
an unknown phase or no `exit` means nothing to run). -/
def exitOf (cfg : Config) (phase : String) : List String :=
  match alookup cfg.phases phase with
  | some ph => ph.exit
  | none => []

/-- runtime.ts `attemptTransition` lines 100-155: guard, exit plugs of the
current phase, transition actions, phase change (clearing `error`, storing
`lastEvent`), entry plugs of the new phase, and auto-start of the new
phase's invoke.  Returns whether the transition committed. -/
def attemptTransition (cfg : Config) (plugs : List (String × Plug)) (t : TransTarget)
    (ev : Val) (s : SessionState) : TRes (SessionState × Bool × Option PendingInvoke) :=
  let gr := evalGuard plugs t.cond s.data ev
  let sg := { s with data := gr.1 }
  if gr.2 = false then Except.ok (sg, false, none)
  else
    match runPlugList plugs (exitOf cfg sg.currentPhase) ev sg with
    | Except.error pe => Except.error pe
    | Except.ok s1 =>
      match runPlugList plugs t.actions ev s1 with
      | Except.error pe => Except.error pe
      | Except.ok s2 =>
        let s3 := { s2 with currentPhase := t.target, error := none, lastEvent := ev }
        match alookup cfg.phases t.target with
        | none => Except.ok (s3, true, none)
        | some nph =>
          match runPlugList plugs nph.entry ev s3 with
          | Except.error pe => Except.error pe
          | Except.ok s4 =>
            match nph.invoke with
            | some inv =>
              let hi := handleInvokeStart plugs inv s4
              Except.ok (hi.1, true, hi.2)
            | none => Except.ok (s4, true, none)

/-- runtime.ts `transition` lines 88-95 (array case): try each alternative
in declared order; the first one whose guard passes wins and the loop
returns; data mutations of failed guards persist. -/
def attemptList (cfg : Config) (plugs : List (String × Plug)) (ts : List TransTarget)
    (ev : Val) (s : SessionState) : TRes (SessionState × Bool × Option PendingInvoke) :=
  match ts with
  | [] => Except.ok (s, false, none)
  | t :: rest =>
    match attemptTransition cfg plugs t ev s with
    | Except.error pe => Except.error pe
    | Except.ok (s', true, p) => Except.ok (s', true, p)
    | Except.ok (s', false, _) => attemptList cfg plugs rest ev s'

/-- runtime.ts `transition` lines 86-98: dispatch on single vs. list form. -/
def runTransition (cfg : Config) (plugs : List (String × Plug)) (te : TEntry)
    (ev : Val) (s : SessionState) : TRes (SessionState × Bool × Option PendingInvoke) :=
  match te with
  | TEntry.one t => attemptTransition cfg plugs t ev s
  | TEntry.many ts => attemptList cfg plugs ts ev s

/-- runtime.ts `do` lines 320-342 (named `doStep`; `do` is reserved in
Lean): if the current phase has no entry for the event, warn and return
with nothing recorded; otherwise push the history entry, build the event
object (key `type` mapped to the action name, then the payload spread on
top) and run the transition; a
thrown (non-guard) plug error is caught and stored as `error` with only its
message.  The synchronous slice ends when an invoke is started; the pending
settlement is returned alongside. -/
def doStep (cfg : Config) (plugs : List (String × Plug)) (action : String)
    (payload : Data) (now : Nat) (s : SessionState) : SessionState × Option PendingInvoke :=
  match alookup cfg.phases s.currentPhase with
  | none => (s, none)
  | some ph =>
    match alookup ph.onMap action with
    | none => (s, none)
    | some te =>
      let ev := Val.vObj (objAssign [("type", Val.vStr action)] payload)
      let s1 := { s with history := s.history ++ [⟨action, payload, s.currentPhase, now⟩] }
      match runTransition cfg plugs te ev s1 with
      | Except.ok (s2, _, p) => (s2, p)
      | Except.error (sE, e) => ({ sE with error := some ⟨e.message, none⟩ }, none)

/-- runtime.ts `can` lines 314-318: empty when the phase is unknown or the
session is loading, else the keys of the phase's transition table. -/
def canFn (cfg : Config) (s : SessionState) : List String :=
  match alookup cfg.phases s.currentPhase with
  | none => []
  | some ph => if s.loading then [] else ph.onMap.map Prod.fst

/-- Failure half of `handleInvoke`'s settlement (the `catch` block, lines
178-186): store `error` (with its code), then run `onError` if declared. -/
def settleFailure (cfg : Config) (plugs : List (String × Plug)) (inv : Invoke)
    (s : SessionState) (e : ErrInfo) : SessionState × Option PendingInvoke :=
  let s1 := { s with error := some e }
  match inv.onError with
  | none => (s1, none)
  | some te =>
    match runTransition cfg plugs te
        (Val.vObj [("type", Val.vStr "ERROR"), ("error", errVal e)]) s1 with
    | Except.ok (s2, _, p) => (s2, p)
    | Except.error (sE, _) => (sE, none)

/-- Settlement of a pending invocation (`handleInvoke` lines 172-186 after
the `await`): applied to whatever session state is current at settle time —
the source records no generation token and never compares the phase that
started the call with the phase at settlement.  Success clears `loading`
and runs `onDone` with a synthetic DONE event (an error thrown by that
transition falls into the same `catch` as a service failure); failure
clears `loading`, stores `error`, and runs `onError`. -/
def settleInvoke (cfg : Config) (plugs : List (String × Plug)) (pend : PendingInvoke)
    (s : SessionState) : SessionState × Option PendingInvoke :=
  match pend.outcome with
  | Except.ok v =>
    let s1 := { s with loading := false }
    match pend.invoke.onDone with
    | none => (s1, none)
    | some te =>
      match runTransition cfg plugs te
          (Val.vObj [("type", Val.vStr "DONE"), ("data", v)]) s1 with
      | Except.ok (s2, _, p) => (s2, p)
      | Except.error (sE, e) => settleFailure cfg plugs pend.invoke sE e
  | Except.error e => settleFailure cfg plugs pend.invoke { s with loading := false } e

/-- runtime.ts `getDefaultForType` lines 446-455: note the fall-through
returns `null`, so untyped fields still receive a value. -/
def getDefaultForType : Option String → Val
  | some "string" => Val.vStr ""
  | some "number" => Val.vNum 0
  | some "boolean" => Val.vBool false
  | some "array" => Val.vArr []
  | some "object" => Val.vObj []
  | _ => Val.vNull

/-- The value chosen for one schema field by `initializeData`'s loop body
(lines 432-440): the override if present, else the declared default, else
the type zero. -/
def chooseVal (initialData : Data) (k : String) (dd : DataDef) : Val :=
  match alookup initialData k with
  | some v => v
  | none =>
    match dd.default with
    | some dv => dv
    | none => getDefaultForType dd.ftype

/-- runtime.ts `initializeData` lines 429-444: write each schema field's
chosen value in declaration order, then merge the full override object on
top (line 443). -/
def initializeData (schema : List (String × DataDef)) (initialData : Data) : Data :=
  objAssign
    (schema.foldl (fun acc kd => setKey acc kd.1 (chooseVal initialData kd.1 kd.2)) [])
    initialData

/-- runtime.ts `start` lines 36-44 and 399-403: initialize data, pick the
initial phase (`config.initial` or the first declared phase), and auto-start
the initial phase's invoke if it has one. -/
def startState (cfg : Config) (plugs : List (String × Plug)) (initialData : Data) :
    SessionState × Option PendingInvoke :=
  let d := initializeData cfg.dataSchema initialData
  let phase0 :=
    match cfg.initial with
    | some p => p
    | none => ((cfg.phases.map Prod.fst).headD "")
  let s : SessionState :=
    ⟨phase0, d, false, none, Val.vObj [("type", Val.vStr "INIT")], []⟩
  match alookup cfg.phases phase0 with
  | some ph =>
    match ph.invoke with
    | some inv => handleInvokeStart plugs inv s
    | none => (s, none)
  | none => (s, none)

/-- runtime.ts `snapshot()` lines 389-396. -/
def snapshotOf (cfg : Config) (s : SessionState) (now : Nat) : Snapshot :=
  ⟨cfg.version, s.currentPhase, s.data, now⟩

/-- runtime.ts `restore` lines 408-420: a version mismatch is only a logged
diagnostic; the session is then simply started fresh with the snapshot's
data — the snapshot's phase is never applied (the source's own comment
calls this a hack and notes a real implementation would set the phase). -/
def restoreState (cfg : Config) (plugs : List (String × Plug)) (snap : Snapshot) :
    SessionState × Option PendingInvoke :=
  startState cfg plugs snap.data

mutual

/-- validation.ts `DataSchemaField` as exercised by the validator, a mutual
family so the validator can recurse structurally: a field carries `type`,
`required`, `min`/`max`, `minLength`/`maxLength`, `items` (`SItems`, an
optional item schema) and `properties` (`SProps`, the ordered field list of
a schema object; `SProps.pnil` stands for an absent/empty `properties`
object — behaviourally identical, since walking an empty schema adds no
violations).  The `pattern` (regex) check and `$ref`/model resolution are
outside this embedding; the claims under study use neither. -/
inductive SField where
  | mk : Option String → Bool → Option Int → Option Int → Option Nat → Option Nat →
         SItems → SProps → SField

inductive SItems where
  | noItems : SItems
  | withItems : SField → SItems

inductive SProps where
  | pnil : SProps
  | pcons : String → SField → SProps → SProps

end

/-- validation.ts `getActualType`: arrays before the `typeof` dispatch, and
`null` reported as `object` (as in JSON). -/
def getActualType : Val → String
  | Val.vArr _ => "array"
  | Val.vNull => "object"
  | Val.vStr _ => "string"
  | Val.vNum _ => "number"
  | Val.vBool _ => "boolean"
  | Val.vObj _ => "object"

/-- JS member access `value[key]`: a property of an object, `undefined`
otherwise (parents holding `null` are outside the embedding's scope). -/
def getField : Val → String → Option Val
  | Val.vObj fields, key => alookup fields key
  | _, _ => none

/-- validation.ts `validateString` (minus the regex `pattern` branch):
`minLength` then `maxLength`, in push order. -/
def stringChecks (s : String) (minLen maxLen : Option Nat) (ctx : String) : List String :=
  (match minLen with
   | some n => if s.length < n then [ctx ++ ": length must be >= " ++ toString n] else []
   | none => []) ++
  (match maxLen with
   | some n => if s.length > n then [ctx ++ ": length must be <= " ++ toString n] else []
   | none => [])

/-- validation.ts `validateNumber`: `min` then `max`, in push order. -/
def numberChecks (n : Int) (minI maxI : Option Int) (ctx : String) : List String :=
  (match minI with
   | some m => if n < m then [ctx ++ ": must be >= " ++ toString m] else []
   | none => []) ++
  (match maxI with
   | some m => if n > m then [ctx ++ ": must be <= " ++ toString m] else []
   | none => [])

/-- The `err.message.replace('Validation failed: ', '')` in `validateArray`'s
catch.  JS `replace` with a string substitutes the first occurrence; every
reachable message contains the tag at most once, so replacing all
occurrences coincides. -/
def scrubMessage (m : String) : String :=
  m.replace "Validation failed: " ""

mutual

/-- The field walk of validation.ts `validateSchema` lines 23-72, producing
the accumulated `errors` list.  An `Except.error` models an uncaught
`ValidationError` escaping the walk: the recursive `validateSchema` call
for a directly-nested `object` field (line 70) is NOT wrapped in try/catch,
so its throw aborts the walk and discards every other violation. -/
def checkFields (value : Val) (schema : SProps) (context : String) :
    Except String (List String) :=
  match schema with
  | SProps.pnil => Except.ok []
  | SProps.pcons key field rest =>
    match checkOneField value key field context with
    | Except.error m => Except.error m
    | Except.ok es =>
      match checkFields value rest context with
      | Except.error m => Except.error m
      | Except.ok es2 => Except.ok (es ++ es2)

/-- One iteration of the `validateSchema` field loop: required check, type
check (a mismatch short-circuits the field's remaining checks), then the
type-specific checks.  The `array` branch is validation.ts `validateArray`
(lines 188-220) inlined over the enumerated items: per item a type check
(mismatch skips the item's object validation), then object items are
validated through the throwing entry point with the `ValidationError`
caught and its scrubbed message pushed — array nesting therefore DOES
accumulate, unlike direct object nesting. -/
def checkOneField (value : Val) (key : String) (field : SField) (context : String) :
    Except String (List String) :=
  match field with
  | SField.mk ftype req minI maxI minLen maxLen items props =>
    let fieldContext := context ++ "." ++ key
    match getField value key with
    | none =>
      if req then Except.ok [fieldContext ++ ": required field missing"]
      else Except.ok []
    | some fv =>
      match ftype with
      | none => Except.ok []
      | some t =>
        if getActualType fv ≠ t then
          Except.ok [fieldContext ++ ": expected " ++ t ++ ", got " ++ getActualType fv]
        else if t = "string" then
          match fv with
          | Val.vStr s => Except.ok (stringChecks s minLen maxLen fieldContext)
          | _ => Except.ok []
        else if t = "number" then
          match fv with
          | Val.vNum n => Except.ok (numberChecks n minI maxI fieldContext)
          | _ => Except.ok []
        else if t = "array" then
          match items with
          | SItems.withItems (SField.mk itype _ _ _ _ _ _ iprops) =>
            match fv with
            | Val.vArr xs =>
              Except.ok (xs.enum.flatMap (fun p =>
                let itemContext := fieldContext ++ "[" ++ toString p.1 ++ "]"
                match itype with
                | none => []
                | some ti =>
                  if getActualType p.2 ≠ ti then
                    [itemContext ++ ": expected " ++ ti ++ ", got " ++ getActualType p.2]
                  else if ti = "object" then
                    match checkFields p.2 iprops itemContext with
                    | Except.error m => [scrubMessage m]
                    | Except.ok es =>
                      if es.isEmpty then []
                      else [String.intercalate "; " es]
                  else []))
            | _ => Except.ok []
          | SItems.noItems => Except.ok []
        else if t = "object" then
          match checkFields fv props fieldContext with
          | Except.error m => Except.error m
          | Except.ok es =>
            if es.isEmpty then Except.ok []
            else Except.error ("Validation failed: " ++ String.intercalate "; " es)
        else Except.ok []

end

/-- validation.ts `validateSchema` entry point: run the walk and throw a
`ValidationError` joining the accumulated violations when any exist. -/
def validateSchemaE (value : Val) (schema : SProps) (context : String) :
    Except String Unit :=
  match checkFields value schema context with
  | Except.error m => Except.error m
  | Except.ok es =>
    if es.isEmpty then Except.ok ()
    else Except.error ("Validation failed: " ++ String.intercalate "; " es)

/-- Targets contributed by one transition-table entry, as flattened by
`Object.values(transitions).flat().map(t => ... target)`. -/
def entryTargets : TEntry → List String
  | TEntry.one t => [t.target]
  | TEntry.many ts => ts.map TransTarget.target

/-- All declared targets of a phase (runtime.ts `allPaths` lines 210-213). -/
def targetsOf (ph : Phase) : List String :=
  ph.onMap.flatMap (fun kv => entryTargets kv.2)

/-- `config.initial || Object.keys(config.phases)[0]` (runtime.ts line 41
and 226). -/
def initialPhase (cfg : Config) : String :=
  match cfg.initial with
  | some p => p
  | none => (cfg.phases.map Prod.fst).headD ""

/-- runtime.ts `allPaths` DFS (lines 197-224), fuel-indexed: `none` models
a recursion that would exceed the given depth budget.  A phase already on
the current path is skipped; a `final` phase or a phase with no targets
ends (and records) the path; otherwise the phase joins the visited set and
each target is explored in order — the `for (const target of targets)`
loop rendered as a `mapM` whose per-branch path lists are concatenated in
push order.  The source's `visited.delete(phase)` on backtrack means every
recursive call sees exactly its ancestors' chain, which functional passing
of `phase :: visited` reproduces. -/
def dfsFuel (cfg : Config) : Nat → List String → List String → String →
    Option (List (List String))
  | 0, _, _, _ => none
  | Nat.succ f, visited, path, phase =>
    if phase ∈ visited then some []
    else
      let currentPath := path ++ [phase]
      match alookup cfg.phases phase with
      | none => some [currentPath]
      | some ph =>
        if ph.ptype = some "final" then some [currentPath]
        else
          let ts := targetsOf ph
          if ts.isEmpty then some [currentPath]
          else
            (ts.mapM (fun t => dfsFuel cfg f (phase :: visited) currentPath t)).map
              (fun pss => pss.flatten)

/-- Every string the DFS can ever be called on: the initial phase plus
every declared target. -/
def visitUniverse (cfg : Config) : List String :=
  initialPhase cfg :: cfg.phases.flatMap (fun kv => targetsOf kv.2)

/-- runtime.ts `allPaths` lines 192-230, run with a fuel strictly larger
than the number of distinct visitable phases — shown sufficient below. -/
def allPathsFn (cfg : Config) : Option (List (List String)) :=
  dfsFuel cfg ((visitUniverse cfg).length + 1) [] [] (initialPhase cfg)

/-- A phase at which the DFS records a path: unknown in the phase table
(hence no transitions), declared `final`, or with an empty target list. -/
def endsOk (cfg : Config) (phase : String) : Prop :=
  match alookup cfg.phases phase with
  | none => True
  | some ph => ph.ptype = some "final" ∨ targetsOf ph = []

/-- The state owned by one `createBlackbox(config)` factory: the single
mutable `plugs` variable of the factory closure (runtime.ts line 25) plus
the per-session states.  Sessions hold no registry of their own: both the
factory-level `use` (lines 422-424) and every session's `use` (lines
367-369) `Object.assign` into this one shared map, and `executePlug`
resolves names against it at call time. -/
structure FactoryState where
  registry : List (String × Plug)
  sessions : List SessionState

/-- `createBlackbox(config)`: `let plugs = ... config.plugs ...`. -/
def createFactory (cfg : Config) : FactoryState :=
  ⟨cfg.plugs, []⟩

/-- Factory-level `use(newPlugs)` (runtime.ts lines 422-424). -/
def useFactory (f : FactoryState) (newPlugs : List (String × Plug)) : FactoryState :=
  { f with registry := objAssign f.registry newPlugs }

/-- Session-level `use(newPlugs)` of session `sid` (runtime.ts lines
367-369): the session index plays no role — the assignment hits the same
closure variable. -/
def useSession (f : FactoryState) (_sid : Nat) (newPlugs : List (String × Plug)) :
    FactoryState :=
  { f with registry := objAssign f.registry newPlugs }

/-- Plug lookup as performed inside session `sid`'s `executePlug`: every
session of the factory reads the same registry. -/
def resolvePlug (f : FactoryState) (_sid : Nat) (name : String) : Option Plug :=
  alookup f.registry name

/-- Instrumented copy of `attemptList` that additionally records, in order,
the names of the guard operations actually invoked (a candidate with no
`cond` invokes none).  Its first component is proved below to coincide with
`attemptList`, so statements about the trace are statements about the
source's loop. -/
def attemptListTrace (cfg : Config) (plugs : List (String × Plug)) (ts : List TransTarget)
    (ev : Val) (s : SessionState) :
    TRes (SessionState × Bool × Option PendingInvoke) × List String :=
  match ts with
  | [] => (Except.ok (s, false, none), [])
  | t :: rest =>
    match attemptTransition cfg plugs t ev s with
    | Except.error pe => (Except.error pe, t.cond.toList)
    | Except.ok (s', true, p) => (Except.ok (s', true, p), t.cond.toList)
    | Except.ok (s', false, _) =>
      let r := attemptListTrace cfg plugs rest ev s'
      (r.1, t.cond.toList ++ r.2)

/-- Data after the guard evaluations of a list of rejected candidates (each
failed guard's mutation persists, threaded in order). -/
def guardFoldData (plugs : List (String × Plug)) (pre : List TransTarget) (ev : Val)
    (d : Data) : Data :=
  pre.foldl (fun d' t' => (evalGuard plugs t'.cond d' ev).1) d

/-- A fresh session state in a given phase with given data (as `start`
produces before any dispatch). -/
def mkSession (phase : String) (d : Data) : SessionState :=
  ⟨phase, d, false, none, Val.vObj [("type", Val.vStr "INIT")], []⟩

/-- An otherwise-empty phase with the given transition table. -/
def mkPhase (entries : List (String × TEntry)) : Phase :=
  ⟨entries, [], [], none, none⟩

/-- Example program for the snapshot/restore scenario: `idle` moves to
`active` on `START`. -/
def exCfg1 : Config :=
  ⟨"1.0.0", some "idle",
   [("idle", mkPhase [("START", TEntry.one (TransTarget.simple "active"))]),
    ("active", mkPhase [])],
   [], []⟩

/-- Session after dispatching `START` from a fresh `exCfg1` session. -/
def ex1s1 : SessionState :=
  (doStep exCfg1 [] "START" [] 1 (startState exCfg1 [] []).1).1

/-- Example program with an invoked service: `idle` moves to `fetching` on
`GO`; `fetching` auto-invokes `svc` with `onDone` targeting `done` and
also accepts `CANCEL` towards `other`. -/
def exCfg3 : Config :=
  ⟨"1.0.0", some "idle",
   [("idle", mkPhase [("GO", TEntry.one (TransTarget.simple "fetching"))]),
    ("fetching",
     ⟨[("CANCEL", TEntry.one (TransTarget.simple "other"))], [], [],
      some ⟨"svc", none, some (TEntry.one (TransTarget.simple "done")), none⟩, none⟩),
    ("other", mkPhase []),
    ("done", mkPhase [])],
   [], []⟩

/-- Plugs for `exCfg3`: the service resolves to a string result. -/
def ex3plugs : List (String × Plug) :=
  [("svc", ⟨fun d _ => Except.ok (d, Val.vStr "result")⟩)]

/-- The dispatch of `GO` from a fresh `exCfg3` session: enters `fetching`
and starts the service invocation. -/
def ex3run1 : SessionState × Option PendingInvoke :=
  doStep exCfg3 ex3plugs "GO" [] 1 (startState exCfg3 ex3plugs []).1

/-- Session state while the `exCfg3` service call is in flight. -/
def ex3s1 : SessionState := ex3run1.1

/-- The pending invocation `ex3run1` starts. -/
def ex3p : PendingInvoke :=
  ⟨⟨"svc", none, some (TEntry.one (TransTarget.simple "done")), none⟩,
   Except.ok (Val.vStr "result")⟩

/-- Session state after dispatching `CANCEL` away from `fetching` while the
service call is still pending. -/
def ex3s2 : SessionState := (doStep exCfg3 ex3plugs "CANCEL" [] 2 ex3s1).1

/-- Two-action program for the sequential-visibility scenario: `A` moves to
`B` on `GO`, running actions `a1` then `a2`. -/
def exActCfg : Config :=
  ⟨"1.0.0", some "A",
   [("A", mkPhase [("GO", TEntry.one (TransTarget.full "B" ["a1", "a2"] none))]),
    ("B", mkPhase [])],
   [], []⟩

/-- `assign`-style action plugs for `exActCfg`. -/
def exActPlugs (u1 u2 : Data → Val → Data) : List (String × Plug) :=
  [("a1", assign u1), ("a2", assign u2)]

/-- Guarded-alternatives example: the first candidate's guard plug is not
registered (its invocation throws), the second's guard returns `true`, the
third is never reached. -/
def ex7Cands : List TransTarget :=
  [TransTarget.full "A" [] (some "gBoom"),
   TransTarget.full "B" [] (some "gTrue"),
   TransTarget.full "C" [] (some "gNever")]

/-- Plugs for `ex7Cands`: `gBoom` is absent, `gTrue` passes, `gNever`
would pass were it ever consulted. -/
def ex7Plugs : List (String × Plug) :=
  [("gTrue", ⟨fun d _ => Except.ok (d, Val.vBool true)⟩),
   ("gNever", ⟨fun d _ => Except.ok (d, Val.vBool true)⟩)]

/-- Config whose phase graph has a self-loop next to a terminating branch:
`A` targets both `A` and `B`; `B` has no outgoing transitions. -/
def exLoopCfg : Config :=
  ⟨"1.0.0", some "A",
   [("A", mkPhase [("LOOP", TEntry.one (TransTarget.simple "A")),
                   ("NEXT", TEntry.one (TransTarget.simple "B"))]),
    ("B", mkPhase [])],
   [], []⟩

/-- Schema for the nested-object validation scenario: `a` is an object whose
`x` must be at least 5; `b` is a number that must be at least 18. -/
def c6Schema : SProps :=
  SProps.pcons "a"
    (SField.mk (some "object") false none none none none SItems.noItems
      (SProps.pcons "x"
        (SField.mk (some "number") false (some 5) none none none
          SItems.noItems SProps.pnil)
        SProps.pnil))
    (SProps.pcons "b"
      (SField.mk (some "number") false (some 18) none none none
        SItems.noItems SProps.pnil)
      SProps.pnil)

/-- Value violating both constraints of `c6Schema`. -/
def c6Value : Val :=
  Val.vObj [("a", Val.vObj [("x", Val.vNum 1)]), ("b", Val.vNum 12)]

/-- Flat two-scalar schema: both fields constrained. -/
def c6ScalarSchema : SProps :=
  SProps.pcons "a"
    (SField.mk (some "number") false (some 5) none none none
      SItems.noItems SProps.pnil)
    (SProps.pcons "b"
      (SField.mk (some "number") false (some 18) none none none
        SItems.noItems SProps.pnil)
      SProps.pnil)

/-- Value violating both constraints of `c6ScalarSchema`. -/
def c6ScalarValue : Val :=
  Val.vObj [("a", Val.vNum 1), ("b", Val.vNum 12)]

/-- Data schema for the initialization scenario: an overridden string, a
defaulted number, an untyped field with no default. -/
def c8Schema : List (String × DataDef) :=
  [("name", ⟨some "string", none⟩),
   ("count", ⟨some "number", some (Val.vNum 7)⟩),
   ("misc", ⟨none, none⟩)]

/-- Overrides for `c8Schema`: `name` set explicitly, plus a key the schema
does not declare. -/
def c8Init : Data :=
  [("name", Val.vStr "x"), ("extra", Val.vBool true)]

/-- History component of a possibly-thrown plug-list run. -/
def plugsHistory : TRes SessionState → List HistoryEntry
  | Except.ok s => s.history
  | Except.error (sE, _) => sE.history

/-- History component of a possibly-thrown transition attempt. -/
def stepHistory : TRes (SessionState × Bool × Option PendingInvoke) → List HistoryEntry
  | Except.ok (s, _, _) => s.history
  | Except.error (sE, _) => sE.history

lemma alookup_setKey_self {α : Type} (m : List (String × α)) (k : String) (v : α) :
    alookup (setKey m k v) k = some v := by
  induction m with
  | nil => simp [setKey, alookup]
  | cons kv rest ih =>
    obtain ⟨k1, w⟩ := kv
    by_cases h : k1 = k
    · simp [setKey, h, alookup]
    · simp [setKey, h, alookup, ih]

lemma alookup_setKey_ne {α : Type} (m : List (String × α)) (k k' : String) (v : α)
    (h : k' ≠ k) : alookup (setKey m k' v) k = alookup m k := by
  induction m with
  | nil => simp [setKey, alookup, h]
  | cons kv rest ih =>
    obtain ⟨k1, w⟩ := kv
    by_cases h1 : k1 = k'
    · simp [setKey, h1, alookup, h]
    · by_cases h2 : k1 = k
      · simp [setKey, h1, alookup, h2, Ne.symm h]
      · simp [setKey, h1, alookup, h2, ih]

lemma alookup_objAssign {α : Type} (u m : List (String × α)) (k : String) :
    alookup (objAssign m u) k = Option.or (lookupLast u k) (alookup m k) := by
  induction u generalizing m with
  | nil => simp [objAssign, lookupLast]
  | cons kv u' ih =>
    obtain ⟨k1, v1⟩ := kv
    have hstep : objAssign m ((k1, v1) :: u') = objAssign (setKey m k1 v1) u' := by
      simp [objAssign]
    rw [hstep, ih]
    cases hl : lookupLast u' k with
    | some w => simp [lookupLast, hl]
    | none =>
      by_cases hk : k1 = k
      · subst hk
        simp [lookupLast, hl, alookup_setKey_self, Option.or]
      · simp [lookupLast, hl, hk, alookup_setKey_ne m k k1 v1 hk]

/-- C10: every session produced by one factory shares the factory's single
plug registry: a session-level `use` is literally the factory-level `use`
(and touches no per-session state), and a subsequent lookup from any other
session resolves registered names to the newly installed plugs (last write
wins), falling back to the previous registry otherwise. -/
theorem C10_shared_plug_registry (f : FactoryState) (i j : Nat)
    (m : List (String × Plug)) (k : String) :
    useSession f i m = useFactory f m ∧
    (useSession f i m).sessions = f.sessions ∧
    resolvePlug (useSession f i m) j k =
      Option.or (lookupLast m k) (alookup f.registry k) := by
  refine ⟨rfl, rfl, ?_⟩
  simpa [resolvePlug, useSession] using alookup_objAssign m f.registry k

/-- C1: restoring the snapshot of a session that had moved to phase
`active` yields a session back in the initial phase `idle` — `restore`
starts fresh from the snapshot's data and never applies the snapshot's
phase, contradicting the snapshot/restore round-trip the source's own
comment marks as the intended behaviour. -/
theorem C1_restore_does_not_restore_phase :
    (whereFn ex1s1).phase = "active" ∧
    (snapshotOf exCfg1 ex1s1 2).phase = "active" ∧
    (whereFn (restoreState exCfg1 [] (snapshotOf exCfg1 ex1s1 2)).1).phase = "idle" ∧
    ("idle" : String) ≠ "active" :=
  ⟨rfl, rfl, rfl, by decide⟩

/-- C5: in a committed transition with actions `a1; a2` built from
`assign` updaters, the actions run in declared order and each returned
update is merged before the next action runs — `a2` observes the data
already containing `a1`'s update — and, within any merge, later keys
overwrite earlier ones (lookup resolves to the update's last binding,
else to the pre-merge data). -/
theorem C5_sequential_action_merge (u1 u2 : Data → Val → Data) (d payload : Data)
    (now : Nat) :
    ((doStep exActCfg (exActPlugs u1 u2) "GO" payload now (mkSession "A" d)).1).data =
      (let ev := Val.vObj (objAssign [("type", Val.vStr "GO")] payload)
       let d1 := objAssign d (u1 d ev)
       objAssign d1 (u2 d1 ev)) ∧
    (∀ (m u : Data) (k : String),
      alookup (objAssign m u) k = Option.or (lookupLast u k) (alookup m k)) :=
  ⟨rfl, fun m u k => alookup_objAssign u m k⟩

lemma runPlugList_history (plugs : List (String × Plug)) (names : List String) (ev : Val)
    (s : SessionState) : plugsHistory (runPlugList plugs names ev s) = s.history := by
  induction names generalizing s with
  | nil => rfl
  | cons n rest ih =>
    cases hx : executePlug plugs n s.data ev with
    | error e => simp [runPlugList, hx, plugsHistory]
    | ok dv =>
      obtain ⟨d', v⟩ := dv
      simp only [runPlugList, hx]
      exact ih _

lemma runPlugList_hist_ok (plugs : List (String × Plug)) (names : List String) (ev : Val)
    (s s' : SessionState) (h : runPlugList plugs names ev s = Except.ok s') :
    s'.history = s.history := by
  have hh := runPlugList_history plugs names ev s
  rw [h] at hh
  simpa [plugsHistory] using hh

lemma runPlugList_hist_err (plugs : List (String × Plug)) (names : List String) (ev : Val)
    (s : SessionState) (pe : SessionState × ErrInfo)
    (h : runPlugList plugs names ev s = Except.error pe) : pe.1.history = s.history := by
  have hh := runPlugList_history plugs names ev s
  rw [h] at hh
  obtain ⟨sE, e⟩ := pe
  simpa [plugsHistory] using hh

lemma handleInvokeStart_history (plugs : List (String × Plug)) (inv : Invoke)
    (s : SessionState) : (handleInvokeStart plugs inv s).1.history = s.history := by
  unfold handleInvokeStart
  cases hx : executePlug plugs inv.src { s with loading := true }.data
      (match inv.input with
       | some f => f { s with loading := true }.data { s with loading := true }.lastEvent
       | none => { s with loading := true }.lastEvent) with
  | error e => simp [hx]
  | ok dv =>
    obtain ⟨d', v⟩ := dv
    simp [hx]

lemma attemptTransition_history (cfg : Config) (plugs : List (String × Plug))
    (t : TransTarget) (ev : Val) (s : SessionState) :
    stepHistory (attemptTransition cfg plugs t ev s) = s.history := by
  unfold attemptTransition
  by_cases hg : ((evalGuard plugs t.cond s.data ev).2 = false)
  · simp [hg, stepHistory]
  · rw [if_neg hg]
    dsimp only
    cases hx1 : runPlugList plugs (exitOf cfg s.currentPhase) ev
        { s with data := (evalGuard plugs t.cond s.data ev).1 } with
    | error pe =>
      simp only [hx1, stepHistory]
      simpa using runPlugList_hist_err _ _ _ _ _ hx1
    | ok s1 =>
      have e1 : s1.history = s.history := by
        simpa using runPlugList_hist_ok _ _ _ _ _ hx1
      simp only [hx1]
      cases hx2 : runPlugList plugs t.actions ev s1 with
      | error pe =>
        simp only [hx2, stepHistory]
        exact (runPlugList_hist_err _ _ _ _ _ hx2).trans e1
      | ok s2 =>
        have e2 : s2.history = s1.history := runPlugList_hist_ok _ _ _ _ _ hx2
        simp only [hx2]
        cases hph : alookup cfg.phases t.target with
        | none => simpa [stepHistory] using e2.trans e1
        | some nph =>
          simp only [hph]
          cases hre : runPlugList plugs nph.entry ev
              { s2 with currentPhase := t.target, error := none, lastEvent := ev } with
          | error pe =>
            simp only [hre, stepHistory]
            exact (by simpa using runPlugList_hist_err _ _ _ _ _ hre :
              pe.1.history = s2.history).trans (e2.trans e1)
          | ok s4 =>
            have e4 : s4.history = s2.history := by
              simpa using runPlugList_hist_ok _ _ _ _ _ hre
            simp only [hre]
            cases hi : nph.invoke with
            | some inv =>
              simp only [hi, stepHistory]
              rw [handleInvokeStart_history]
              exact e4.trans (e2.trans e1)
            | none =>
              simp only [hi, stepHistory]
              exact e4.trans (e2.trans e1)

lemma attemptTransition_hist_ok (cfg : Config) (plugs : List (String × Plug))
    (t : TransTarget) (ev : Val) (s : SessionState)
    (r : SessionState × Bool × Option PendingInvoke)
    (h : attemptTransition cfg plugs t ev s = Except.ok r) : r.1.history = s.history := by
  have hh := attemptTransition_history cfg plugs t ev s
  rw [h] at hh
  obtain ⟨s', b, p⟩ := r
  simpa [stepHistory] using hh

lemma attemptTransition_hist_err (cfg : Config) (plugs : List (String × Plug))
    (t : TransTarget) (ev : Val) (s : SessionState) (pe : SessionState × ErrInfo)
    (h : attemptTransition cfg plugs t ev s = Except.error pe) : pe.1.history = s.history := by
  have hh := attemptTransition_history cfg plugs t ev s
  rw [h] at hh
  obtain ⟨sE, e⟩ := pe
  simpa [stepHistory] using hh

lemma attemptList_history (cfg : Config) (plugs : List (String × Plug))
    (ts : List TransTarget) (ev : Val) (s : SessionState) :
    stepHistory (attemptList cfg plugs ts ev s) = s.history := by
  induction ts generalizing s with
  | nil => simp [attemptList, stepHistory]
  | cons t rest ih =>
    cases hx : attemptTransition cfg plugs t ev s with
    | error pe =>
      simpa [attemptList, hx, stepHistory] using attemptTransition_hist_err _ _ _ _ _ _ hx
    | ok r =>
      obtain ⟨s', b, p⟩ := r
      have hs' : s'.history = s.history := attemptTransition_hist_ok _ _ _ _ _ _ hx
      cases b with
      | true => simpa [attemptList, hx, stepHistory] using hs'
      | false => simp [attemptList, hx, ih s', hs']

lemma runTransition_history (cfg : Config) (plugs : List (String × Plug)) (te : TEntry)
    (ev : Val) (s : SessionState) :
    stepHistory (runTransition cfg plugs te ev s) = s.history := by
  cases te with
  | one t => exact attemptTransition_history cfg plugs t ev s
  | many ts => exact attemptList_history cfg plugs ts ev s

/-- C2 (amended): `do` appends the history entry exactly when the current
phase has a transition entry for the event; an illegal dispatch is
rejected before the push and leaves the history untouched (the source
checks legality first, so history is a log of the legal dispatches only).
The transition itself, whether it commits, no-ops or throws, never touches
the history. -/
theorem C2_history_appended_iff_legal (cfg : Config) (plugs : List (String × Plug))
    (action : String) (payload : Data) (now : Nat) (s : SessionState) :
    ((doStep cfg plugs action payload now s).1).history =
      s.history ++
        (((alookup cfg.phases s.currentPhase).bind
            (fun ph => alookup ph.onMap action)).elim []
          (fun _ => [⟨action, payload, s.currentPhase, now⟩])) := by
  cases h1 : alookup cfg.phases s.currentPhase with
  | none => simp [doStep, h1]
  | some ph =>
    cases h2 : alookup ph.onMap action with
    | none => simp [doStep, h1, h2]
    | some te =>
      simp only [doStep, h1, h2, Option.some_bind, Option.elim]
      cases hr : runTransition cfg plugs te
          (Val.vObj (objAssign [("type", Val.vStr action)] payload))
          { s with history := s.history ++ [⟨action, payload, s.currentPhase, now⟩] } with
      | ok r =>
        obtain ⟨s2, b, p⟩ := r
        have hh := runTransition_history cfg plugs te
          (Val.vObj (objAssign [("type", Val.vStr action)] payload))
          { s with history := s.history ++ [⟨action, payload, s.currentPhase, now⟩] }
        rw [hr] at hh
        simpa [stepHistory, hr] using hh
      | error pe =>
        obtain ⟨sE, e⟩ := pe
        have hh := runTransition_history cfg plugs te
          (Val.vObj (objAssign [("type", Val.vStr action)] payload))
          { s with history := s.history ++ [⟨action, payload, s.currentPhase, now⟩] }
        rw [hr] at hh
        simpa [stepHistory, hr] using hh

/-- C2 counterexample: dispatching an event with no transition entry in the
current phase appends nothing — the history stays empty instead of gaining
the entry the claim promises. -/
theorem C2_counterexample_illegal_not_logged :
    ((doStep exCfg1 [] "NOPE" [] 5 (startState exCfg1 [] []).1).1).history = [] ∧
    ([] : List HistoryEntry) ≠ [⟨"NOPE", [], "idle", 5⟩] :=
  ⟨rfl, by simp⟩

/-- C4 (amended): an event with no entry in the current phase's transition
table is rejected before any state is touched: `where().phase` and
`where().data` are unchanged (the original claim's reading through `can()`
fails while loading — see the counterexample). -/
theorem C4_illegal_event_leaves_state (cfg : Config) (plugs : List (String × Plug))
    (action : String) (payload : Data) (now : Nat) (s : SessionState)
    (h : (alookup cfg.phases s.currentPhase).bind
          (fun ph => alookup ph.onMap action) = none) :
    (whereFn (doStep cfg plugs action payload now s).1).phase = (whereFn s).phase ∧
    (whereFn (doStep cfg plugs action payload now s).1).data = (whereFn s).data := by
  cases h1 : alookup cfg.phases s.currentPhase with
  | none => simp [doStep, h1]
  | some ph =>
    have h2 : alookup ph.onMap action = none := by simpa [h1] using h
    simp [doStep, h1, h2]

theorem C4_witness :
    ((alookup exCfg1.phases ((startState exCfg1 [] []).1).currentPhase).bind
      (fun ph => alookup ph.onMap "NOPE") = none) ∧
    ((whereFn (doStep exCfg1 [] "NOPE" [] 5 (startState exCfg1 [] []).1).1).phase =
        (whereFn (startState exCfg1 [] []).1).phase ∧
      (whereFn (doStep exCfg1 [] "NOPE" [] 5 (startState exCfg1 [] []).1).1).data =
        (whereFn (startState exCfg1 [] []).1).data) :=
  ⟨rfl, C4_illegal_event_leaves_state exCfg1 [] "NOPE" [] 5 (startState exCfg1 [] []).1 rfl⟩

/-- C4 counterexample: while a service call is in flight `can()` is empty,
so `CANCEL` is "not in `can()`" — yet dispatching it moves the session from
`fetching` to `other`, changing `where().phase`. -/
theorem C4_counterexample_loading_dispatch :
    canFn exCfg3 ex3s1 = [] ∧
    ex3s1.loading = true ∧
    ex3s1.currentPhase = "fetching" ∧
    (doStep exCfg3 ex3plugs "CANCEL" [] 2 ex3s1).1.currentPhase = "other" ∧
    ("other" : String) ≠ "fetching" :=
  ⟨rfl, rfl, rfl, rfl, by decide⟩

/-- C3: the settlement of a service call started on entering `fetching` is
applied to whatever phase is current when it arrives: after `CANCEL` moved
the session to `other`, the pending result's `onDone` transition still
fires and drags the session to `done` — the stale result is not discarded,
because the source tracks no generation token. -/
theorem C3_stale_invoke_result_applied :
    ex3run1.2 = some ex3p ∧
    ex3s1.currentPhase = "fetching" ∧
    ex3s1.loading = true ∧
    ex3s2.currentPhase = "other" ∧
    (settleInvoke exCfg3 ex3plugs ex3p ex3s2).1.currentPhase = "done" ∧
    ("done" : String) ≠ "other" :=
  ⟨rfl, rfl, rfl, rfl, rfl, by decide⟩

lemma alookup_none_iff_not_mem {α : Type} (m : List (String × α)) (k : String) :
    alookup m k = none ↔ k ∉ m.map Prod.fst := by
  induction m with
  | nil => simp [alookup]
  | cons kv rest ih =>
    obtain ⟨k1, w⟩ := kv
    by_cases h : k1 = k
    · simp [alookup, h]
    · simp [alookup, h, ih, Ne.symm h]

lemma lookupLast_none_of_alookup_none {α : Type} (m : List (String × α)) (k : String)
    (h : alookup m k = none) : lookupLast m k = none := by
  induction m with
  | nil => rfl
  | cons kv rest ih =>
    obtain ⟨k1, w⟩ := kv
    by_cases h1 : k1 = k
    · simp [alookup, h1] at h
    · simp [alookup, h1] at h
      simp [lookupLast, ih h, h1]

lemma lookupLast_of_nodup {α : Type} (m : List (String × α)) (k : String) (v : α)
    (hnd : (m.map Prod.fst).Nodup) (h : alookup m k = some v) : lookupLast m k = some v := by
  induction m with
  | nil => simp [alookup] at h
  | cons kv rest ih =>
    obtain ⟨k1, w⟩ := kv
    simp only [List.map_cons, List.nodup_cons] at hnd
    by_cases h1 : k1 = k
    · subst h1
      simp [alookup] at h
      have hr : alookup rest k1 = none := (alookup_none_iff_not_mem rest k1).mpr hnd.1
      simp [lookupLast, lookupLast_none_of_alookup_none rest k1 hr, h]
    · simp [alookup, h1] at h
      simp [lookupLast, ih hnd.2 h, h1]

lemma alookup_foldl_setKey_not_mem {α β : Type} (l : List (String × β))
    (g : String × β → α) (acc : List (String × α)) (k : String)
    (h : k ∉ l.map Prod.fst) :
    alookup (l.foldl (fun acc kd => setKey acc kd.1 (g kd)) acc) k = alookup acc k := by
  induction l generalizing acc with
  | nil => rfl
  | cons kd rest ih =>
    obtain ⟨k1, b1⟩ := kd
    simp only [List.map_cons, List.mem_cons, not_or] at h
    simp only [List.foldl_cons]
    rw [ih _ h.2]
    exact alookup_setKey_ne acc k k1 (g (k1, b1)) (fun he => h.1 he.symm)

lemma alookup_foldl_setKey_found {α β : Type} (l : List (String × β))
    (g : String × β → α) (acc : List (String × α)) (k : String) (b : β)
    (hnd : (l.map Prod.fst).Nodup) (h : alookup l k = some b) :
    alookup (l.foldl (fun acc kd => setKey acc kd.1 (g kd)) acc) k = some (g (k, b)) := by
  induction l generalizing acc with
  | nil => simp [alookup] at h
  | cons kd rest ih =>
    obtain ⟨k1, b1⟩ := kd
    simp only [List.map_cons, List.nodup_cons] at hnd
    by_cases h1 : k1 = k
    · subst h1
      simp [alookup] at h
      subst h
      simp only [List.foldl_cons]
      rw [alookup_foldl_setKey_not_mem rest g _ k1 hnd.1]
      exact alookup_setKey_self acc k1 (g (k1, b1))
    · simp [alookup, h1] at h
      simp only [List.foldl_cons]
      exact ih _ hnd.2 h

/-- C8 (amended): field initialization precedence — an explicit override
always wins (also for keys the schema does not declare, which are preserved
as-is); otherwise a declared `default` is used; otherwise the type zero of
`getDefaultForType`, which is `null` for fields with no (or an unknown)
declared type — the key is present with value `null`, not absent as the
original claim states; keys in neither schema nor overrides stay absent. -/
theorem C8_init_field_precedence (schema : List (String × DataDef)) (init : Data)
    (hs : (schema.map Prod.fst).Nodup) (hi : (init.map Prod.fst).Nodup) :
    (∀ k v, alookup init k = some v →
       alookup (initializeData schema init) k = some v) ∧
    (∀ k dd dv, alookup schema k = some dd → alookup init k = none →
       dd.default = some dv → alookup (initializeData schema init) k = some dv) ∧
    (∀ k dd, alookup schema k = some dd → alookup init k = none → dd.default = none →
       alookup (initializeData schema init) k = some (getDefaultForType dd.ftype)) ∧
    (∀ k, alookup schema k = none → alookup init k = none →
       alookup (initializeData schema init) k = none) := by
  refine ⟨?_, ?_, ?_, ?_⟩
  · intro k v hv
    rw [initializeData, alookup_objAssign, lookupLast_of_nodup init k v hi hv]
    rfl
  · intro k dd dv hdd hnone hdv
    rw [initializeData, alookup_objAssign, lookupLast_none_of_alookup_none init k hnone]
    rw [alookup_foldl_setKey_found schema (fun kd => chooseVal init kd.1 kd.2) [] k dd hs hdd]
    simp [chooseVal, hnone, hdv]
  · intro k dd hdd hnone hdef
    rw [initializeData, alookup_objAssign, lookupLast_none_of_alookup_none init k hnone]
    rw [alookup_foldl_setKey_found schema (fun kd => chooseVal init kd.1 kd.2) [] k dd hs hdd]
    simp [chooseVal, hnone, hdef]
  · intro k hks hki
    rw [initializeData, alookup_objAssign, lookupLast_none_of_alookup_none init k hki]
    rw [alookup_foldl_setKey_not_mem schema (fun kd => chooseVal init kd.1 kd.2) [] k
      ((alookup_none_iff_not_mem schema k).mp hks)]
    rfl

theorem C8_witness :
    ((c8Schema.map Prod.fst).Nodup ∧ (c8Init.map Prod.fst).Nodup) ∧
    alookup (initializeData c8Schema c8Init) "name" = some (Val.vStr "x") ∧
    alookup (initializeData c8Schema c8Init) "count" = some (Val.vNum 7) ∧
    alookup (initializeData c8Schema c8Init) "misc" = some Val.vNull ∧
    alookup (initializeData c8Schema c8Init) "extra" = some (Val.vBool true) := by
  have h := C8_init_field_precedence c8Schema c8Init (by decide) (by decide)
  exact ⟨⟨by decide, by decide⟩,
    h.1 "name" (Val.vStr "x") rfl,
    h.2.1 "count" ⟨some "number", some (Val.vNum 7)⟩ (Val.vNum 7) rfl rfl rfl,
    h.2.2.1 "misc" ⟨none, none⟩ rfl rfl rfl,
    h.1 "extra" (Val.vBool true) rfl⟩

/-- C8 counterexample: a schema field with no declared type and no default
is initialized to the value `null` — the key IS present in the data (bound
to `null`), where the claim says it is absent. -/
theorem C8_counterexample_untyped_field_present :
    alookup (initializeData [("foo", DataDef.mk none none)] []) "foo" = some Val.vNull ∧
    some Val.vNull ≠ (none : Option Val) :=
  ⟨rfl, by simp⟩

lemma attemptListTrace_fst (cfg : Config) (plugs : List (String × Plug))
    (ts : List TransTarget) (ev : Val) (s : SessionState) :
    (attemptListTrace cfg plugs ts ev s).1 = attemptList cfg plugs ts ev s := by
  induction ts generalizing s with
  | nil => rfl
  | cons t rest ih =>
    cases hx : attemptTransition cfg plugs t ev s with
    | error pe => simp [attemptListTrace, attemptList, hx]
    | ok r =>
      obtain ⟨s', b, p⟩ := r
      cases b with
      | true => simp [attemptListTrace, attemptList, hx]
      | false => simp [attemptListTrace, attemptList, hx, ih]

lemma attemptTransition_guard_false (cfg : Config) (plugs : List (String × Plug))
    (t : TransTarget) (ev : Val) (s : SessionState)
    (hg : (evalGuard plugs t.cond s.data ev).2 = false) :
    attemptTransition cfg plugs t ev s =
      Except.ok ({ s with data := (evalGuard plugs t.cond s.data ev).1 }, false, none) := by
  simp [attemptTransition, hg]

lemma attemptTransition_nofalse (cfg : Config) (plugs : List (String × Plug))
    (t : TransTarget) (ev : Val) (s s' : SessionState) (p : Option PendingInvoke)
    (hg : (evalGuard plugs t.cond s.data ev).2 = true) :
    attemptTransition cfg plugs t ev s ≠ Except.ok (s', false, p) := by
  intro h
  unfold attemptTransition at h
  rw [if_neg (by simp [hg])] at h
  dsimp only at h
  repeat' split at h
  all_goals simp_all

/-- C7: with an ordered candidate list whose earlier guards all fail — a
guard that throws, or whose plug is missing, counts as a failure and never
aborts the dispatch (third conjunct) — the loop commits to the first
candidate whose guard passes, evaluating it on the data as mutated by the
failed guards; and the invoked guards are exactly those of the earlier
candidates plus the matching one: the guards of later candidates are never
invoked. -/
theorem C7_first_matching_guard_commits (cfg : Config) (plugs : List (String × Plug))
    (pre : List TransTarget) (t : TransTarget) (post : List TransTarget) (ev : Val)
    (s : SessionState)
    (hpre : ∀ t' ∈ pre, ∀ d : Data, (evalGuard plugs t'.cond d ev).2 = false)
    (hmatch : (evalGuard plugs t.cond (guardFoldData plugs pre ev s.data) ev).2 = true) :
    attemptList cfg plugs (pre ++ t :: post) ev s =
      attemptTransition cfg plugs t ev
        { s with data := guardFoldData plugs pre ev s.data } ∧
    (attemptListTrace cfg plugs (pre ++ t :: post) ev s).2 =
      pre.flatMap (fun u => u.cond.toList) ++ t.cond.toList ∧
    (∀ (g : String) (d : Data) (eo : ErrInfo),
      executePlug plugs g d ev = Except.error eo →
        evalGuard plugs (some g) d ev = (d, false)) := by
  induction pre generalizing s with
  | nil =>
    have hm : (evalGuard plugs t.cond s.data ev).2 = true := hmatch
    refine ⟨?_, ?_, ?_⟩
    · cases hx : attemptTransition cfg plugs t ev s with
      | error pe => simp [attemptList, hx, guardFoldData]
      | ok r =>
        obtain ⟨s', b, p⟩ := r
        cases b with
        | true => simp [attemptList, hx, guardFoldData]
        | false => exact absurd hx (attemptTransition_nofalse cfg plugs t ev s s' p hm)
    · cases hx : attemptTransition cfg plugs t ev s with
      | error pe => simp [attemptListTrace, hx]
      | ok r =>
        obtain ⟨s', b, p⟩ := r
        cases b with
        | true => simp [attemptListTrace, hx]
        | false => exact absurd hx (attemptTransition_nofalse cfg plugs t ev s s' p hm)
    · intro g d eo h
      simp [evalGuard, h]
  | cons u pre' ih =>
    have hgf : (evalGuard plugs u.cond s.data ev).2 = false :=
      hpre u (List.mem_cons_self u pre') s.data
    have hstep := attemptTransition_guard_false cfg plugs u ev s hgf
    have hfd : guardFoldData plugs (u :: pre') ev s.data =
        guardFoldData plugs pre' ev (evalGuard plugs u.cond s.data ev).1 := by
      simp [guardFoldData]
    have ih2 := ih { s with data := (evalGuard plugs u.cond s.data ev).1 }
      (fun t' ht' d => hpre t' (List.mem_cons_of_mem u ht') d)
      (by rw [hfd] at hmatch; exact hmatch)
    refine ⟨?_, ?_, ih2.2.2⟩
    · rw [List.cons_append]
      simp only [attemptList, hstep]
      rw [ih2.1, hfd]
    · rw [List.cons_append]
      simp only [attemptListTrace, hstep]
      rw [ih2.2.1]
      simp

theorem C7_witness :
    (∀ t' ∈ [TransTarget.full "A" [] (some "gBoom")], ∀ d : Data,
      (evalGuard ex7Plugs t'.cond d (Val.vObj [("type", Val.vStr "GO")])).2 = false) ∧
    attemptList exCfg1 ex7Plugs ex7Cands (Val.vObj [("type", Val.vStr "GO")])
        (mkSession "idle" []) =
      attemptTransition exCfg1 ex7Plugs (TransTarget.full "B" [] (some "gTrue"))
        (Val.vObj [("type", Val.vStr "GO")])
        { mkSession "idle" [] with
            data := guardFoldData ex7Plugs [TransTarget.full "A" [] (some "gBoom")]
              (Val.vObj [("type", Val.vStr "GO")]) (mkSession "idle" []).data } ∧
    (attemptListTrace exCfg1 ex7Plugs ex7Cands (Val.vObj [("type", Val.vStr "GO")])
        (mkSession "idle" [])).2 = ["gBoom", "gTrue"] := by
  have hpre : ∀ t' ∈ [TransTarget.full "A" [] (some "gBoom")], ∀ d : Data,
      (evalGuard ex7Plugs t'.cond d (Val.vObj [("type", Val.vStr "GO")])).2 = false := by
    intro t' ht' d
    simp only [List.mem_singleton] at ht'
    subst ht'
    rfl
  have h := C7_first_matching_guard_commits exCfg1 ex7Plugs
    [TransTarget.full "A" [] (some "gBoom")] (TransTarget.full "B" [] (some "gTrue"))
    [TransTarget.full "C" [] (some "gNever")] (Val.vObj [("type", Val.vStr "GO")])
    (mkSession "idle" []) hpre (by rfl)
  refine ⟨hpre, h.1, ?_⟩
  rw [show ex7Cands = [TransTarget.full "A" [] (some "gBoom")] ++
    TransTarget.full "B" [] (some "gTrue") :: [TransTarget.full "C" [] (some "gNever")]
    from rfl, h.2.1]
  rfl

lemma alookup_mem {α : Type} (m : List (String × α)) (k : String) (v : α)
    (h : alookup m k = some v) : (k, v) ∈ m := by
  induction m with
  | nil => simp [alookup] at h
  | cons kv rest ih =>
    obtain ⟨k1, w⟩ := kv
    by_cases h1 : k1 = k
    · subst h1
      simp [alookup] at h
      subst h
      exact List.mem_cons_self _ _
    · simp [alookup, h1] at h
      exact List.mem_cons_of_mem _ (ih h)

lemma targetsOf_subset_universe (cfg : Config) (phase : String) (ph : Phase)
    (h : alookup cfg.phases phase = some ph) :
    ∀ t ∈ targetsOf ph, t ∈ visitUniverse cfg := by
  intro t ht
  have hmem : (phase, ph) ∈ cfg.phases := alookup_mem _ _ _ h
  exact List.mem_cons_of_mem _ (List.mem_flatMap.mpr ⟨(phase, ph), hmem, ht⟩)

lemma dfs_card_decrease (cfg : Config) (visited : List String) (phase : String)
    (hmem : phase ∈ visitUniverse cfg) (hv : phase ∉ visited) (fuel : Nat)
    (hcard : ((visitUniverse cfg).toFinset \ visited.toFinset).card < fuel + 1) :
    ((visitUniverse cfg).toFinset \ (phase :: visited).toFinset).card < fuel := by
  have hpS : phase ∈ (visitUniverse cfg).toFinset \ visited.toFinset :=
    Finset.mem_sdiff.mpr ⟨List.mem_toFinset.mpr hmem, fun hc => hv (List.mem_toFinset.mp hc)⟩
  have hrw : (visitUniverse cfg).toFinset \ (phase :: visited).toFinset =
      ((visitUniverse cfg).toFinset \ visited.toFinset).erase phase := by
    ext a
    simp only [List.toFinset_cons, Finset.mem_sdiff, Finset.mem_erase, Finset.mem_insert,
      List.mem_toFinset, not_or]
    tauto
  have hpos : 0 < ((visitUniverse cfg).toFinset \ visited.toFinset).card :=
    Finset.card_pos.mpr ⟨phase, hpS⟩
  rw [hrw, Finset.card_erase_of_mem hpS]
  omega

lemma optionMapM_isSome {α β : Type} (f : α → Option β) :
    ∀ (l : List α), (∀ a ∈ l, (f a).isSome) → (l.mapM f).isSome := by
  intro l
  induction l with
  | nil =>
    intro _
    rw [List.mapM_nil]
    rfl
  | cons a l' ih =>
    intro hl
    rw [List.mapM_cons]
    obtain ⟨x, hx⟩ := Option.isSome_iff_exists.mp (hl a (List.mem_cons_self a l'))
    obtain ⟨xs, hxs⟩ := Option.isSome_iff_exists.mp
      (ih (fun t ht => hl t (List.mem_cons_of_mem a ht)))
    simp only [hx, hxs]
    rfl

lemma optionMapM_mem {α β : Type} (f : α → Option β) :
    ∀ (l : List α) (ys : List β), l.mapM f = some ys →
      ∀ y ∈ ys, ∃ a, a ∈ l ∧ f a = some y := by
  intro l
  induction l with
  | nil =>
    intro ys h y hy
    have hys : ([] : List β) = ys := Option.some.inj h
    subst hys
    simp at hy
  | cons a l' ihl =>
    intro ys h y hy
    rw [List.mapM_cons] at h
    cases h1 : f a with
    | none =>
      rw [h1] at h
      exact Option.noConfusion h
    | some x =>
      rw [h1] at h
      replace h : ((l'.mapM f).bind fun xs => pure (x :: xs)) = some ys := h
      cases h2 : l'.mapM f with
      | none =>
        rw [h2] at h
        exact Option.noConfusion h
      | some xs =>
        rw [h2] at h
        have hys : x :: xs = ys := Option.some.inj h
        subst hys
        rcases List.mem_cons.mp hy with rfl | hy2
        · exact ⟨a, List.mem_cons_self a l', h1⟩
        · obtain ⟨b, hb, hfb⟩ := ihl xs h2 y hy2
          exact ⟨b, List.mem_cons_of_mem a hb, hfb⟩

lemma dfsFuel_expand (cfg : Config) (f : Nat) (visited path : List String)
    (phase : String) (ph : Phase) (hv : phase ∉ visited)
    (hph : alookup cfg.phases phase = some ph) (hfin : ¬ph.ptype = some "final")
    (hts : ¬((targetsOf ph).isEmpty = true)) :
    dfsFuel cfg (f + 1) visited path phase =
      Option.map (fun pss => pss.flatten)
        ((targetsOf ph).mapM
          (fun t => dfsFuel cfg f (phase :: visited) (path ++ [phase]) t)) := by
  simp only [dfsFuel]
  rw [if_neg hv, hph]
  dsimp only
  rw [if_neg hfin, if_neg hts]

lemma dfs_isSome (cfg : Config) : ∀ (fuel : Nat) (visited path : List String)
    (phase : String), phase ∈ visitUniverse cfg →
    ((visitUniverse cfg).toFinset \ visited.toFinset).card < fuel →
    (dfsFuel cfg fuel visited path phase).isSome := by
  intro fuel
  induction fuel with
  | zero =>
    intro visited path phase hmem hcard
    exact absurd hcard (Nat.not_lt_zero _)
  | succ f ihf =>
    intro visited path phase hmem hcard
    by_cases hv : phase ∈ visited
    · simp [dfsFuel, hv]
    · cases hph : alookup cfg.phases phase with
      | none => simp [dfsFuel, hv, hph]
      | some ph =>
        by_cases hfin : ph.ptype = some "final"
        · simp [dfsFuel, hv, hph, hfin]
        · by_cases hts : (targetsOf ph).isEmpty
          · simp [dfsFuel, hv, hph, hfin, hts]
          · have hcard' := dfs_card_decrease cfg visited phase hmem hv f hcard
            have hsub := targetsOf_subset_universe cfg phase ph hph
            rw [dfsFuel_expand cfg f visited path phase ph hv hph hfin hts]
            have hsome := optionMapM_isSome _ (targetsOf ph)
              (fun a ha => ihf (phase :: visited) (path ++ [phase]) a (hsub a ha) hcard')
            obtain ⟨pss, hpss⟩ := Option.isSome_iff_exists.mp hsome
            rw [hpss]
            rfl

lemma dfs_paths_end (cfg : Config) : ∀ (fuel : Nat) (visited path : List String)
    (phase : String) (paths : List (List String)),
    dfsFuel cfg fuel visited path phase = some paths →
    ∀ p ∈ paths, ∃ z, p.getLast? = some z ∧ endsOk cfg z := by
  intro fuel
  induction fuel with
  | zero =>
    intro visited path phase paths h
    simp [dfsFuel] at h
  | succ f ihf =>
    intro visited path phase paths h p hp
    simp only [dfsFuel] at h
    by_cases hv : phase ∈ visited
    · rw [if_pos hv] at h
      injection h with h
      subst h
      simp at hp
    · rw [if_neg hv] at h
      cases hph : alookup cfg.phases phase with
      | none =>
        rw [hph] at h
        dsimp only at h
        injection h with h
        subst h
        simp only [List.mem_singleton] at hp
        subst hp
        exact ⟨phase, List.getLast?_concat _, by simp [endsOk, hph]⟩
      | some ph =>
        rw [hph] at h
        dsimp only at h
        by_cases hfin : ph.ptype = some "final"
        · rw [if_pos hfin] at h
          injection h with h
          subst h
          simp only [List.mem_singleton] at hp
          subst hp
          exact ⟨phase, List.getLast?_concat _, by simp [endsOk, hph, hfin]⟩
        · rw [if_neg hfin] at h
          by_cases hts : (targetsOf ph).isEmpty
          · rw [if_pos hts] at h
            injection h with h
            subst h
            simp only [List.mem_singleton] at hp
            subst hp
            refine ⟨phase, List.getLast?_concat _, ?_⟩
            simp [endsOk, hph, List.isEmpty_iff.mp hts]
          · rw [if_neg hts] at h
            cases hm : (targetsOf ph).mapM
                (fun t => dfsFuel cfg f (phase :: visited) (path ++ [phase]) t) with
            | none => rw [hm] at h; simp at h
            | some pss =>
              rw [hm] at h
              obtain rfl : pss.flatten = paths := Option.some.inj h
              obtain ⟨l, hl, hpl⟩ := List.mem_flatten.mp hp
              obtain ⟨t, ht, hdfs⟩ := optionMapM_mem _ (targetsOf ph) pss hm l hl
              exact ihf (phase :: visited) (path ++ [phase]) t l hdfs p hpl

/-- C9: `allPaths` terminates on every finite phase graph — run with fuel
one larger than the number of visitable phases it always returns a result,
because a phase already on the current path blocks re-entry even though the
visited set is released on backtrack — and every returned path ends at a
phase that is `final` or has no outgoing transitions (an unknown target
phase vacuously has none). -/
theorem C9_allPaths_terminates_and_ends (cfg : Config) :
    (allPathsFn cfg).isSome ∧
    (∀ p ∈ (allPathsFn cfg).getD [], ∃ z, p.getLast? = some z ∧ endsOk cfg z) := by
  constructor
  · have hb : ((visitUniverse cfg).toFinset \ ([] : List String).toFinset).card <
        (visitUniverse cfg).length + 1 := by
      simp only [List.toFinset_nil, Finset.sdiff_empty]
      exact Nat.lt_succ_of_le (visitUniverse cfg).toFinset_card_le
    exact dfs_isSome cfg _ [] [] (initialPhase cfg) (by simp [visitUniverse]) hb
  · intro p hp
    cases h : allPathsFn cfg with
    | none => rw [h] at hp; simp at hp
    | some paths =>
      rw [h] at hp
      simp only [Option.getD_some] at hp
      exact dfs_paths_end cfg _ [] [] (initialPhase cfg) paths h p hp

theorem C9_witness :
    (allPathsFn exLoopCfg).isSome ∧
    allPathsFn exLoopCfg = some [["A", "B"]] ∧
    endsOk exLoopCfg "B" := by
  refine ⟨(C9_allPaths_terminates_and_ends exLoopCfg).1, rfl, ?_⟩
  have h := (C9_allPaths_terminates_and_ends exLoopCfg).2 ["A", "B"]
    (by rw [show allPathsFn exLoopCfg = some [["A", "B"]] from rfl]; simp)
  obtain ⟨z, hz, he⟩ := h
  rw [show (["A", "B"] : List String).getLast? = some "B" from rfl] at hz
  injection hz with hz
  rw [hz]
  exact he

/-- C6: validating a value whose directly-nested object field `a` fails
(`a.x` below its minimum) and whose sibling scalar field `b` also fails
reports ONLY the nested violation: the uncaught throw from the nested walk
aborts validation, dropping `b`'s violation, so the result differs from the
accumulate-everything report.  With two flat scalar fields (second
conjunct) both violations ARE joined into one report — the fail-fast is
specific to directly-nested object fields, contradicting the claim that no
violation is ever dropped. -/
theorem C6_nested_object_violation_aborts :
    validateSchemaE c6Value c6Schema "Value" =
      Except.error "Validation failed: Value.a.x: must be >= 5" ∧
    validateSchemaE c6ScalarValue c6ScalarSchema "Value" =
      Except.error "Validation failed: Value.a: must be >= 5; Value.b: must be >= 18" ∧
    (Except.error "Validation failed: Value.a.x: must be >= 5" :
        Except String Unit) ≠
      Except.error "Validation failed: Value.a.x: must be >= 5; Value.b: must be >= 18" :=
  ⟨rfl, rfl, by intro h; injection h with h; exact absurd h (by decide)⟩

end Blackbox